import Mathlib

/-!
Verification of the target/dependency database core (GNU make's `file.c`,
with its helper `normalize` from `misc.c`), via a shallow embedding of the
C sources into Lean.  Strings are modelled as `List Char` where character
surgery matters and as `String` elsewhere; the file hash table is an
association list from hash-name to an arena index; C pointers between
`struct file` records become arena indices (`Nat`), null pointers become
`Option Nat`.
-/

namespace MakeFile

/-! ### Identifier normalizer (`misc.c`: `pathsep`, `normalize`) -/

/-- `misc.c pathsep`: `/` is the only path separator (no DOS paths). -/
def pathsep (c : Char) : Bool := c = '/'

/-- Fuel-driven worker for the first loop of `misc.c normalize`.  One unit of
fuel per iteration; each iteration removes at least two characters, so
`s.length` units always suffice.  The guard mirrors the C condition
`slen > 2 && s[0] == '.' && pathsep (s[1])`. -/
def stripGo : Nat → List Char → List Char
  | fuel + 1, c1 :: c2 :: rest =>
    if c1 = '.' ∧ pathsep c2 ∧ rest ≠ [] then
      stripGo fuel (rest.dropWhile pathsep)
    else c1 :: c2 :: rest
  | _, s => s

/-- The first loop of `misc.c normalize`: while the string has more than two
characters and starts with `.` followed by a path separator, skip the `./`
and every following separator. -/
def stripLeadingDotSlash (s : List Char) : List Char :=
  stripGo s.length s

/-- Fuel-driven worker for the second loop of `misc.c normalize`.  One unit of
fuel per character examined; `s.length` units always suffice.  A window
`/./` is collapsed together with the slash run that follows it, keeping the
leading `/` (the C removes `2 + strspn (u + 3, "/")` characters at `u + 1`). -/
def collapseGo : Nat → List Char → List Char
  | fuel + 1, c1 :: c2 :: c3 :: rest =>
    if c1 = '/' ∧ c2 = '.' ∧ c3 = '/' then
      collapseGo fuel ('/' :: rest.dropWhile pathsep)
    else c1 :: collapseGo fuel (c2 :: c3 :: rest)
  | fuel + 1, c :: rest => c :: collapseGo fuel rest
  | _, s => s

/-- The second loop of `misc.c normalize`: repeatedly find the first `/./`
occurrence and remove the `./` together with all successive slashes
(keeping the leading `/`). -/
def collapseDotSlash (s : List Char) : List Char :=
  collapseGo s.length s

/-- `misc.c normalize`: strip redundant leading `./` segments, then collapse
every interior `/./` run. -/
def normalize (s : List Char) : List Char :=
  collapseDotSlash (stripLeadingDotSlash s)

theorem length_dropWhile_le (p : Char → Bool) (l : List Char) :
    (l.dropWhile p).length ≤ l.length := by
  induction l with
  | nil => simp [List.dropWhile]
  | cons c rest ih =>
    by_cases h : p c
    · simp [List.dropWhile, h]; omega
    · simp [List.dropWhile, h]

/-- Decides whether the string contains a `/./` window (what the C loop's
`strstr (s, "/./")` searches for). -/
def containsSlashDotSlash : List Char → Bool
  | c1 :: c2 :: c3 :: rest =>
    if c1 = '/' ∧ c2 = '.' ∧ c3 = '/' then true
    else containsSlashDotSlash (c2 :: c3 :: rest)
  | _ => false

/-! ### Data model (`struct file` / `struct dep` as used by `file.c`) -/

inductive UpdateStatus
  | us_none
  | us_success
  | us_question
  | us_failed
deriving DecidableEq, Repr

/-- A dependency edge (`struct dep`), with the fields `file.c` uses.
`file` is an arena index into the registry.  `stem_basename`, in C a pointer
into `stem`, is kept as the offset `sbo` into the stem
(`dlen = stem_basename - stem`). -/
structure Dep where
  name : Option String := none
  file : Option Nat := none
  ignore_mtime : Bool := false
  ignore_automatic_vars : Bool := false
  need_2nd_expansion : Bool := false
  staticpattern : Bool := false
  wait_here : Bool := false
  stem : Option String := none
  stem_dirname : String := ""
  sbo : Nat := 0
deriving DecidableEq, Repr

instance : Inhabited Dep := ⟨{}⟩

/-- A target/prerequisite node (`struct file`), with the fields `file.c`
uses.  Recipes (`struct commands *`) are modelled by identity as an optional
recipe id; pointers to other `struct file` records (`double_colon`, `prev`,
`last`, `renamed`) are arena indices into the registry. -/
structure File where
  name : String := ""
  hname : String := ""
  deps : List Dep := []
  cmds : Option Nat := none
  stem : Option String := none
  last_mtime : Int := 0
  mtime_before_update : Int := 0
  update_status : UpdateStatus := .us_none
  double_colon : Option Nat := none
  prev : Option Nat := none
  last : Option Nat := none
  renamed : Option Nat := none
  precious : Bool := false
  loaded : Bool := false
  tried_implicit : Bool := false
  updating : Bool := false
  updated : Bool := false
  is_target : Bool := false
  cmd_target : Bool := false
  phony : Bool := false
  intermediate : Bool := false
  is_explicit : Bool := false
  secondary : Bool := false
  notintermediate : Bool := false
  ignore_vpath : Bool := false
  snapped : Bool := false
  suffix : Bool := false
  builtin : Bool := false
  dontcare : Bool := false
deriving DecidableEq, Repr

instance : Inhabited File := ⟨{}⟩

/-! ### Identity merge (`file.c rehash_file`, merge branch) -/

/-- The merge branch of `rehash_file` (`file.c:264-349`): `to_file` already
exists under the requested hash name, so `from_file` is merged into it.
This is the merge expressed as a function of the two file records; the
surrounding hash-table re-keying and the permanent forwarding list do not
affect the merged record.  The two `OSS (fatal, ...)` calls on colon
inconsistency become `.error`; the non-fatal "two distinct recipes"
diagnostic only prints, so it has no representation here (the existing
recipe of `to_file` is kept, as in the C).  `merge_variable_set_lists` is an
external collaborator and variable sets are not part of the model.
In the C the recipe/dependency/variable merges are performed before the two
fatal colon checks, but `fatal` terminates the process, so on the fatal
paths those partial mutations are unobservable; here the checks come first
and the merged record is built in one expression. -/
def rehash_file_merge (to_file from_file : File) : Except String File :=
  if to_file.double_colon ≠ none ∧ from_file.is_target ∧ from_file.double_colon = none then
    .error "cannot rename single-colon to double-colon"
  else if to_file.double_colon = none ∧ from_file.double_colon ≠ none ∧ to_file.is_target then
    .error "cannot rename double-colon to single-colon"
  else
    .ok { to_file with
          -- to_file adopts from_file's recipe only when it has none
          cmds := if from_file.cmds ≠ none ∧ to_file.cmds = none
                  then from_file.cmds else to_file.cmds
          -- dependency lists are concatenated, to_file's first
          deps := to_file.deps ++ from_file.deps
          double_colon := if to_file.double_colon = none ∧ from_file.double_colon ≠ none
                          then from_file.double_colon else to_file.double_colon
          -- %%% Kludge so -W wins on a file that gets vpathized
          last_mtime := if from_file.last_mtime > to_file.last_mtime
                        then from_file.last_mtime else to_file.last_mtime
          mtime_before_update := from_file.mtime_before_update
          -- MERGE(field): to_file->field |= from_file->field;
          -- intermediate is deliberately not in the MERGE list
          precious := to_file.precious || from_file.precious
          loaded := to_file.loaded || from_file.loaded
          tried_implicit := to_file.tried_implicit || from_file.tried_implicit
          updating := to_file.updating || from_file.updating
          updated := to_file.updated || from_file.updated
          is_target := to_file.is_target || from_file.is_target
          cmd_target := to_file.cmd_target || from_file.cmd_target
          phony := to_file.phony || from_file.phony
          is_explicit := to_file.is_explicit || from_file.is_explicit
          secondary := to_file.secondary || from_file.secondary
          notintermediate := to_file.notintermediate || from_file.notintermediate
          ignore_vpath := to_file.ignore_vpath || from_file.ignore_vpath
          snapped := to_file.snapped || from_file.snapped
          suffix := to_file.suffix || from_file.suffix
          builtin := false }

/-! ### The file registry (`file.c`: `files` table, `lookup_file`, `enter_file`) -/

/-- The registry: an arena of `File` records (indices model `struct file *`)
plus the hash table, an association list from hash name to arena index. -/
structure Registry where
  files : List File := []
  hash : List (String × Nat) := []
deriving DecidableEq, Repr

/-- Dereference an arena index (a null-safe `struct file *` read). -/
def Registry.getFile (r : Registry) (i : Nat) : File :=
  r.files.getD i default

/-- Overwrite the record at an arena index. -/
def Registry.setFile (r : Registry) (i : Nat) (f : File) : Registry :=
  { r with files := r.files.set i f }

/-- `hash_find_item` / `hash_find_slot` on the `files` table: the arena index
bound to a hash name, if any. -/
def Registry.find (r : Registry) (name : String) : Option Nat :=
  (r.hash.find? (fun p => p.1 = name)).map (fun p => p.2)

/-- `lookup_file` (`file.c:87-150`): canonicalize the name with the leading
`./`-stripping loop (`file.c:124-130`, the same loop as `normalize`'s first
phase; `ISDIRSEP` is `/` on POSIX), substitute `"./"` when everything after
the dot was slashes (`file.c:132-141`), and search the hash table. -/
def lookup_file (r : Registry) (name : String) : Option Nat :=
  let stripped := stripLeadingDotSlash name.toList
  r.find (if stripped = [] then "./" else stripped.asString)

/-- `enter_file` (`file.c:157-213`): return the existing single-colon record
for the name, clearing its `builtin` flag; if the name is bound to a
double-colon chain, allocate a new chain member, link it through the chain
head (`new->double_colon = f; f->last->prev = new; f->last = new`); if the
name is unbound, allocate a fresh record with `last` pointing to itself and
register it.  Returns the arena index of the resulting record and the new
registry.  The C dereferences `f->last` unconditionally; a head with no
`last` (impossible for a hash-resident head, which is created with
`last = self`) is modelled as skipping the `prev` update. -/
def enter_file (r : Registry) (name : String) : Nat × Registry :=
  match r.find name with
  | some i =>
    let f := r.getFile i
    if f.double_colon = none then
      (i, r.setFile i { f with builtin := false })
    else
      let j := r.files.length
      let newf : File := { name := name, hname := name, double_colon := some i }
      let r1 : Registry := { r with files := r.files ++ [newf] }
      let r2 := match f.last with
                | some k => r1.setFile k { r1.getFile k with prev := some j }
                | none => r1
      (j, r2.setFile i { r2.getFile i with last := some j })
  | none =>
    let j := r.files.length
    let newf : File := { name := name, hname := name, last := some j }
    (j, { files := r.files ++ [newf], hash := (name, j) :: r.hash })

/-- Modelled from the spec: the rule-recording caller of `enter_file`
(`record_files`, outside these sources) registers a double-colon rule body
for a name by entering the name and pointing the returned record's
`double_colon` at the chain head (itself, when the record is new), marking
it a target. -/
def register_double_colon (r : Registry) (name : String) : Nat × Registry :=
  let p := enter_file r name
  let f := p.2.getFile p.1
  (p.1, p.2.setFile p.1
    { f with is_target := true
             double_colon := if f.double_colon = none then some p.1 else f.double_colon })

/-! ### The intermediate file reaper (`file.c remove_intermediates`) -/

/-- `errno` values relevant to `unlink` failures. -/
inductive Errno
  | enoent
  | eacces
  | eperm
  | eio
deriving DecidableEq, Repr

/-- The outcome of the `unlink` system call on one file. -/
inductive UnlinkResult
  | ok
  | err (e : Errno)
deriving DecidableEq, Repr

/-- The global state consulted by `remove_intermediates`. -/
structure ReapGlobals where
  question_flag : Bool := false
  touch_flag : Bool := false
  all_secondary : Bool := false
  no_intermediates : Bool := false
  just_print_flag : Bool := false
  run_silent : Bool := false
  sig : Bool := false
deriving DecidableEq, Repr

/-- The eligibility test of `remove_intermediates` (`file.c:402-403`):
`f->intermediate && (f->dontcare || !f->precious) && !f->secondary
&& !f->notintermediate && !f->cmd_target`. -/
def intermediate_eligible (f : File) : Bool :=
  f.intermediate && (f.dontcare || !f.precious)
    && !f.secondary && !f.notintermediate && !f.cmd_target

/-- What one iteration of the reap sweep does with one node. -/
inductive ReapAction
  | notEligible      -- the eligibility test failed: node skipped
  | neverAttempted   -- `update_status == us_none`: node skipped
  | removed          -- deletion succeeded (or `-n` made `status = 0`)
  | keptNotFound     -- `unlink` failed with `ENOENT`: treated as satisfied
  | failedReported   -- `unlink` failed otherwise; `perror_with_name` ran
  | failedSilent     -- `unlink` failed otherwise on a `dontcare` node: no report
deriving DecidableEq, Repr

/-- Whether an action reported a deletion failure (`perror_with_name`,
`file.c:442`, reached only inside the `!f->dontcare` block). -/
def ReapAction.reportsFailure : ReapAction → Bool
  | .failedReported => true
  | _ => false

/-- Whether the sweep went on to attempt deletion of the node rather than
skipping it (`continue` / failing the eligibility test). -/
def ReapAction.selected : ReapAction → Bool
  | .notEligible => false
  | .neverAttempted => false
  | _ => true

/-- One iteration of the sweep loop of `remove_intermediates`
(`file.c:394-448`) on one node, given the outcome `u` that `unlink` would
produce for it.  Under `-n` (`just_print_flag`) the C sets `status = 0`
without calling `unlink`. -/
def reap_file (g : ReapGlobals) (f : File) (u : UnlinkResult) : ReapAction :=
  if ¬ (intermediate_eligible f = true) then .notEligible
  else if f.update_status = .us_none then .neverAttempted
  else
    match (if g.just_print_flag then .ok else u : UnlinkResult) with
    | .ok => .removed
    | .err .enoent => .keptNotFound
    | .err _ => if f.dontcare then .failedSilent else .failedReported

/-- The early punt of `remove_intermediates` (`file.c:386-390`). -/
def reap_punt (g : ReapGlobals) : Bool :=
  g.question_flag || g.touch_flag || g.all_secondary || g.no_intermediates
    || (g.sig && g.just_print_flag)

/-- `remove_intermediates`: punt early under the global conditions, else
sweep every node in turn, producing one `ReapAction` per node. -/
def remove_intermediates (g : ReapGlobals) (fs : List (File × UnlinkResult)) :
    List ReapAction :=
  if reap_punt g then [] else fs.map (fun p => reap_file g p.1 p.2)

/-! ### Special-target finalize, intermediate lifecycle steps
(`file.c snap_deps`, steps `.NOTINTERMEDIATE` / `.INTERMEDIATE` /
`.SECONDARY` and their mutual-exclusion check).

The model is chain-free: every name is bound to at most one record, so each
C loop `for (f2 = d->file; f2 != 0; f2 = f2->prev)` visits exactly one
record, and a `struct dep`'s resolved `file` pointer is represented by the
dependency's name looked up in the database.  Marking a name marks every
record carrying it, which coincides with the C on databases whose names are
unique (hash keys are unique). -/

/-- A file record as consulted by the intermediate-lifecycle steps of
`snap_deps`. -/
structure SFile where
  name : String
  deps : List String := []
  intermediate : Bool := false
  secondary : Bool := false
  notintermediate : Bool := false
deriving DecidableEq, Repr

/-- Database lookup by name (`lookup_file` for this fragment). -/
def slookup (db : List SFile) (n : String) : Option SFile :=
  db.find? (fun f => f.name = n)

/-- Update the record(s) named `n`. -/
def smark (db : List SFile) (n : String) (upd : SFile → SFile) : List SFile :=
  db.map (fun f => if f.name = n then upd f else f)

/-- `.NOTINTERMEDIATE` step (`file.c:964-972`): with deps, mark each dep
`notintermediate`; with none, raise the global `no_intermediates` flag. -/
def snap_notintermediate (db : List SFile) : List SFile × Bool :=
  match slookup db ".NOTINTERMEDIATE" with
  | none => (db, false)
  | some f =>
    if f.deps ≠ [] then
      (f.deps.foldl
        (fun acc n => smark acc n (fun g => { g with notintermediate := true })) db,
       false)
    else (db, true)

/-- The dep loop of the `.INTERMEDIATE` step (`file.c:982-989`): fatal if a
dep is already `notintermediate`, else mark it `intermediate`.  A dep name
not bound in the database (impossible in C, where `d->file` is a live
pointer) is skipped. -/
def snap_intermediate_deps (db : List SFile) : List String → Except String (List SFile)
  | [] => .ok db
  | n :: rest =>
    match slookup db n with
    | none => snap_intermediate_deps db rest
    | some g =>
      if g.notintermediate then
        .error (n ++ " cannot be both .NOTINTERMEDIATE and .INTERMEDIATE")
      else
        snap_intermediate_deps (smark db n (fun x => { x with intermediate := true })) rest

/-- `.INTERMEDIATE` step (`file.c:980-992`); the no-deps form does nothing. -/
def snap_intermediate (db : List SFile) : Except String (List SFile) :=
  match slookup db ".INTERMEDIATE" with
  | none => .ok db
  | some f => snap_intermediate_deps db f.deps

/-- The dep loop of the `.SECONDARY` step (`file.c:997-1004`): fatal if a dep
is already `notintermediate`, else mark it both `intermediate` and
`secondary`. -/
def snap_secondary_deps (db : List SFile) : List String → Except String (List SFile)
  | [] => .ok db
  | n :: rest =>
    match slookup db n with
    | none => snap_secondary_deps db rest
    | some g =>
      if g.notintermediate then
        .error (n ++ " cannot be both .NOTINTERMEDIATE and .SECONDARY")
      else
        snap_secondary_deps
          (smark db n (fun x => { x with intermediate := true, secondary := true })) rest

/-- `.SECONDARY` step (`file.c:994-1007`): with deps, run the dep loop; with
none, raise the global `all_secondary` flag. -/
def snap_secondary (db : List SFile) : Except String (List SFile × Bool) :=
  match slookup db ".SECONDARY" with
  | none => .ok (db, false)
  | some f =>
    if f.deps ≠ [] then (snap_secondary_deps db f.deps).map (fun db2 => (db2, false))
    else .ok (db, true)

/-- Steps 4-7 of `snap_deps` in source order: `.NOTINTERMEDIATE`,
`.INTERMEDIATE`, `.SECONDARY`, then the fatal mutual exclusion of the two
global flags (`file.c:1009-1011`).  Returns the database and the
`no_intermediates` / `all_secondary` globals. -/
def snap_deps_intermediates (db : List SFile) :
    Except String (List SFile × Bool × Bool) :=
  match snap_intermediate (snap_notintermediate db).1 with
  | .error msg => .error msg
  | .ok db2 =>
    match snap_secondary db2 with
    | .error msg => .error msg
    | .ok p3 =>
      if (snap_notintermediate db).2 && p3.2 then
        .error ".NOTINTERMEDIATE and .SECONDARY are mutually exclusive"
      else .ok (p3.1, (snap_notintermediate db).2, p3.2)

/-! ### Prerequisite parsing, resolution and second expansion
(`file.c`: `split_prereqs`, `enter_prereqs`, `expand_deps`,
`second_expand_pattern_dep`, `second_expand_dep`, `substitute_stem`) -/

/-- Blank characters (`END_OF_TOKEN` / `NEXT_TOKEN`). -/
def isblank (c : Char) : Bool := c == ' ' || c == '\t'

/-- Modelled from the spec: `PARSE_FILE_SEQ` — `parse_file_seq` lives outside
these sources.  Splits the text into whitespace-delimited names, stopping at
a `|` character when `stopAtPipe` (`MAP_PIPE`) is set; each name found gets
the directory prefix prepended.  Returns the parsed names and the remainder
of the text from the stopping character on.  `.WAIT` markers
(`PARSEFS_WAIT`), globbing and VPATH rewriting are not modelled.  Fuel-driven
(one unit per word; the text length always suffices). -/
def parse_file_seq : Nat → Bool → Option String → List Char → List String × List Char
  | 0, _, _, s => ([], s)
  | fuel + 1, stopAtPipe, dirname, s =>
    match s.dropWhile isblank with
    | [] => ([], [])
    | c :: rest =>
      if stopAtPipe && c == '|' then ([], c :: rest)
      else
        let stop := fun (x : Char) => isblank x || (stopAtPipe && x == '|')
        let word := (c :: rest).takeWhile (fun x => ! stop x)
        let rem := (c :: rest).dropWhile (fun x => ! stop x)
        let p := parse_file_seq fuel stopAtPipe dirname rem
        (((dirname.getD "") ++ word.asString) :: p.1, p.2)

/-- `parse_file_seq` with enough fuel. -/
def parseFileSeq (stopAtPipe : Bool) (dirname : Option String) (s : List Char) :
    List String × List Char :=
  parse_file_seq s.length stopAtPipe dirname s

/-- `split_prereqs` (`file.c:460-490`): parse names up to an optional `|`;
names after the `|` are order-only (`ignore_mtime` set on each). -/
def split_prereqs (p : String) (dirname : Option String) : List Dep :=
  let r1 := parseFileSeq true dirname p.toList
  let new := r1.1.map (fun n => ({ name := some n } : Dep))
  match r1.2 with
  | _ :: rest2 =>
    let ood := (parseFileSeq false dirname rest2).1.map
      (fun n => ({ name := some n, ignore_mtime := true } : Dep))
    new ++ ood
  | [] => new

/-- Modelled from the spec: `find_percent` (external) — the position of the
first unescaped wildcard marker `%`.  Backslash escaping is not modelled;
the split is at the first `%`. -/
def find_percent_split : List Char → Option (List Char × List Char)
  | [] => none
  | c :: rest =>
    if c == '%' then some ([], rest)
    else (find_percent_split rest).map (fun p => (c :: p.1, p.2))

/-- The stem-substitution loop body of `enter_prereqs` (`file.c:515-571`) for
one dependency: build `nm` as the first `dlen` characters of
`stem_dirname` followed by the dep name; if `nm` carries a `%`, substitute
the stem basename for it (`patsubst_expand_pat` with pattern `"%"`; an
empty basename instead just deletes the `%`); a substitution result that is
the empty string drops the dependency (`none`).  In every kept case
`staticpattern` is set, as in the C loop. -/
def stem_subst_dep (d : Dep) : Option Dep :=
  let dname := d.name.getD ""
  let dlen := d.sbo
  let basename := (d.stem.getD "").drop dlen
  let nm := (d.stem_dirname.take dlen) ++ dname
  match find_percent_split nm.toList with
  | none => some { d with staticpattern := true }
  | some q =>
    let out := if basename = "" then q.1 ++ q.2 else q.1 ++ basename.toList ++ q.2
    if out = [] then none
    else some { d with name := some out.asString, staticpattern := true }

/-- `d->file = lookup_file (d->name); if (d->file == 0)
d->file = enter_file (d->name);` — resolve a name to an arena index,
entering it if absent. -/
def enter_dep (r : Registry) (name : String) : Nat × Registry :=
  match lookup_file r name with
  | some i => (i, r)
  | none => enter_file r name

/-- The second loop of `enter_prereqs` (`file.c:575-588`): enter each dep's
file unless it still needs second expansion; clear `staticpattern` and the
name; mark the file explicit when the owner has no stem
(`owner_stem_absent` is the C's `!file || !file->stem`). -/
def enter_prereq_files (owner_stem_absent : Bool) :
    Registry → List Dep → Registry × List Dep
  | r, [] => (r, [])
  | r, d :: rest =>
    if d.need_2nd_expansion then
      let p := enter_prereq_files owner_stem_absent r rest
      (p.1, d :: p.2)
    else
      let q := enter_dep r (d.name.getD "")
      let r3 := if owner_stem_absent then
                  q.2.setFile q.1 { q.2.getFile q.1 with is_explicit := true }
                else q.2
      let p := enter_prereq_files owner_stem_absent r3 rest
      (p.1, { d with file := some q.1, staticpattern := false, name := none } :: p.2)

/-- `enter_prereqs` (`file.c:494-591`): when the first dep carries a stem,
run the stem-substitution loop over all deps (dropping the ones whose
substituted name is empty), then enter the surviving deps. -/
def enter_prereqs (r : Registry) (deps : List Dep) (file : Option File) :
    Registry × List Dep :=
  if deps = [] then (r, [])
  else
    let deps1 := if (deps.head?.bind Dep.stem).isSome
                 then deps.filterMap stem_subst_dep else deps
    enter_prereq_files ((file.bind File.stem) = none) r deps1

/-- The external macro re-expansion capability, modelled from the spec:
`set_file_variables (f, stem)` followed by `expand_string_for_file (name,
f)` — an oracle from the template text and the bound stem to the expanded
text. -/
structure ExpandEnv where
  expand : String → Option String → String

/-- `second_expand_dep` (`file.c:728-777`): bind the stem (the dep's own, or
the file's), second-expand the name, parse the result with `split_prereqs`
under the caller's directory prefix; if nothing was parsed, drop the
placeholder edge (return no replacement deps); else enter each new dep,
propagate the captured stem, and mark order-only when requested.  Returns
the updated registry and the replacement dep list. -/
def second_expand_dep (env : ExpandEnv) (f_stem : Option String) (r : Registry) (d : Dep)
    (name : String) (order_only : Bool) (dirname : Option String) :
    Registry × List Dep :=
  let dstem := d.stem
  let stem := match dstem with
              | some s => some s
              | none => f_stem
  let p := env.expand name stem
  let new := split_prereqs p dirname
  if new = [] then (r, [])
  else
    let step := fun (acc : Registry × List Dep) (nd : Dep) =>
      let q := enter_dep acc.1 (nd.name.getD "")
      let r3 := if dstem = none then
                  q.2.setFile q.1 { q.2.getFile q.1 with is_explicit := true }
                else q.2
      let nd1 : Dep :=
        { nd with
          file := some q.1
          name := none
          stem := dstem
          ignore_mtime := nd.ignore_mtime || order_only }
      (r3, acc.2 ++ [nd1])
    new.foldl step (r, [])

/-- `substitute_stem` (`file.c:790-840`) on one whitespace-free word (the
input always comes from `get_next_word`, so the per-word loop of the C runs
exactly once): replace the first `%` with `$*` (or `$(*F)` when the
directory name is non-empty), parenthesized when the `%` is immediately
preceded by `$`.  Returns the substituted word and the directory name to
prepend (`some dirname` iff the word carried a `%`, as the C returns
`dir_name`/NULL). -/
def substitute_stem (dirname : String) (w : List Char) : List Char × Option String :=
  match find_percent_split w with
  | none => (w, none)
  | some q =>
    let repl : List Char :=
      if q.1.getLast? = some '$' then
        (if dirname ≠ "" then "($(*F))".toList else "($*)".toList)
      else
        (if dirname ≠ "" then "$(*F)".toList else "$*".toList)
    (q.1 ++ repl ++ q.2, some dirname)

/-- `second_expand_pattern_dep` (`file.c:666-719`): with no `%` in the name,
delegate to `second_expand_dep`; else break the unexpanded name into words
(a literal `|` word switches the rest to order-only), substitute the stem
reference into each word and expand word by word, concatenating the
results in word order. -/
def second_expand_pattern_dep (env : ExpandEnv) (f_stem : Option String) (r : Registry)
    (d : Dep) (name : String) : Registry × List Dep :=
  let nperc := name.toList.count '%'
  if nperc = 0 then second_expand_dep env f_stem r d name false none
  else
    let words := (parseFileSeq false none name.toList).1
    let step := fun (acc : (Registry × List Dep) × Bool) (w : String) =>
      if acc.2 = false ∧ w = "|" then (acc.1, true)
      else
        let sub := substitute_stem d.stem_dirname w.toList
        let q := second_expand_dep env f_stem acc.1.1 d sub.1.asString acc.2 sub.2
        ((q.1, acc.1.2 ++ q.2), acc.2)
    (words.foldl step ((r, []), false)).1

/-- The dep-list walk of `expand_deps` (`file.c:614-653`): deps that are
already set (`!d->name || !d->need_2nd_expansion`) pass through; each dep
needing second expansion is replaced in place by its expansion's results
(the captured successor `next = d->next` is walked afterwards, and the
placeholder is freed). -/
def expand_dep_list (env : ExpandEnv) (f_stem : Option String) :
    Registry → List Dep → Registry × List Dep
  | r, [] => (r, [])
  | r, d :: rest =>
    if d.name = none ∨ d.need_2nd_expansion = false then
      let p := expand_dep_list env f_stem r rest
      (p.1, d :: p.2)
    else
      let q := if d.staticpattern then
                 second_expand_pattern_dep env f_stem r d (d.name.getD "")
               else second_expand_dep env f_stem r d (d.name.getD "") false none
      let p := expand_dep_list env f_stem q.1 rest
      (p.1, q.2 ++ p.2)

/-- `expand_deps` (`file.c:596-664`): guarded by the node's `snapped` flag
(set immediately); walks the dep list replacing every dep that needs
second expansion.  `initialize_file_variables` and the shuffle-order
regeneration are external and carry no state in this model. -/
def expand_deps (env : ExpandEnv) (r : Registry) (f : File) : Registry × File :=
  if f.snapped = true then (r, f)
  else
    let f1 := { f with snapped := true }
    let p := expand_dep_list env f1.stem r f1.deps
    (p.1, { f1 with deps := p.2 })

/-! ### Lemmas about the normalizer -/

theorem stripGo_fuel (f1 : Nat) : ∀ (f2 : Nat) (s : List Char), s.length ≤ f1 → s.length ≤ f2 →
    stripGo f1 s = stripGo f2 s := by
  induction f1 with
  | zero =>
    intro f2 s h1 _
    have hs := List.length_eq_zero.mp (Nat.le_zero.mp h1)
    subst hs; cases f2 <;> rfl
  | succ f1 ih =>
    intro f2 s h1 h2
    cases f2 with
    | zero =>
      have hs := List.length_eq_zero.mp (Nat.le_zero.mp h2)
      subst hs; rfl
    | succ f2 =>
      match s, h1, h2 with
      | [], _, _ => rfl
      | [c], _, _ => rfl
      | c1 :: c2 :: rest, h1, h2 =>
        show stripGo (f1+1) _ = stripGo (f2+1) _
        rw [stripGo, stripGo]
        split
        · apply ih
          · have := length_dropWhile_le pathsep rest
            simp only [List.length_cons] at h1; omega
          · have := length_dropWhile_le pathsep rest
            simp only [List.length_cons] at h2; omega
        · rfl

theorem collapseGo_nil (f : Nat) : collapseGo f [] = [] := by cases f <;> rfl

theorem collapseGo_head (fuel : Nat) : ∀ s : List Char, s.length ≤ fuel →
    (collapseGo fuel s).head? = s.head? := by
  induction fuel with
  | zero =>
    intro s h
    have hs := List.length_eq_zero.mp (Nat.le_zero.mp h)
    subst hs; rfl
  | succ f ih =>
    intro s h
    match s, h with
    | [], _ => rfl
    | [c], _ => rfl
    | [c1, c2], _ => rfl
    | c1 :: c2 :: c3 :: rest, h =>
      show (collapseGo (f+1) _).head? = _
      simp only [List.length_cons] at h
      rw [collapseGo]
      split
      · rename_i hc
        have hlen : ('/' :: rest.dropWhile pathsep).length ≤ f := by
          have := length_dropWhile_le pathsep rest
          simp only [List.length_cons]; omega
        rw [ih _ hlen]
        simp [hc.1]
      · rfl

theorem containsSlashDotSlash_cons_false (c : Char) (l : List Char)
    (hl : containsSlashDotSlash l = false)
    (hwin : ¬(c = '/' ∧ l.head? = some '.' ∧ (l.drop 1).head? = some '/')) :
    containsSlashDotSlash (c :: l) = false := by
  match l with
  | [] => rfl
  | [d] => rfl
  | d1 :: d2 :: rest =>
    rw [containsSlashDotSlash]
    split
    · rename_i hc
      exact absurd ⟨hc.1, by simp [hc.2.1], by simp [hc.2.2]⟩ hwin
    · exact hl

theorem collapseGo_cons_not_slash (g : Nat) (c : Char) (l : List Char) (hc : ¬ c = '/') :
    collapseGo (g + 1) (c :: l) = c :: collapseGo g l := by
  match l with
  | [] => rfl
  | [d] => rfl
  | d1 :: d2 :: rest => rw [collapseGo, if_neg (fun hx => hc hx.1)]

theorem collapseGo_no_dotslash (fuel : Nat) : ∀ s : List Char, s.length ≤ fuel →
    containsSlashDotSlash (collapseGo fuel s) = false := by
  induction fuel with
  | zero =>
    intro s h
    have hs := List.length_eq_zero.mp (Nat.le_zero.mp h)
    subst hs; rfl
  | succ f ih =>
    intro s h
    match s, h with
    | [], _ => rfl
    | [c], _ =>
      show containsSlashDotSlash (c :: collapseGo f []) = false
      rw [collapseGo_nil]; rfl
    | [c1, c2], _ =>
      show containsSlashDotSlash (c1 :: collapseGo f [c2]) = false
      cases f with
      | zero => rfl
      | succ g =>
        show containsSlashDotSlash (c1 :: c2 :: collapseGo g []) = false
        rw [collapseGo_nil]; rfl
    | c1 :: c2 :: c3 :: rest, h =>
      simp only [List.length_cons] at h
      show containsSlashDotSlash (collapseGo (f+1) _) = false
      rw [collapseGo]
      split
      · apply ih
        have := length_dropWhile_le pathsep rest
        simp only [List.length_cons]; omega
      · rename_i hc
        have hlen : (c2 :: c3 :: rest).length ≤ f := by simp only [List.length_cons]; omega
        apply containsSlashDotSlash_cons_false _ _ (ih _ hlen)
        rw [collapseGo_head _ _ hlen]
        intro ⟨h1, h2, h3⟩
        simp only [List.head?_cons, Option.some.injEq] at h2
        have hc3 : ¬ (c3 = '/') := fun h3' => hc ⟨h1, h2, h3'⟩
        subst h2
        cases f with
        | zero => simp only [List.length_cons] at hlen; omega
        | succ g =>
          rw [collapseGo_cons_not_slash g '.' (c3 :: rest) (by decide)] at h3
          simp only [List.drop_one, List.tail_cons] at h3
          rw [collapseGo_head g (c3 :: rest)
            (by simp only [List.length_cons] at hlen ⊢; omega)] at h3
          simp only [List.head?_cons, Option.some.injEq] at h3
          exact hc3 h3

/-- C2: `normalize` strips repeated leading `./` segments together with the
slash run that follows each (first conjunct: one stripping step, which the
recursion applies repeatedly), collapses every `/./` occurrence with its
following slash run anywhere in the string (second conjunct: no `/./` window
survives in any output of `normalize`), and in particular maps
`"foo/.///.///bar/"` to `"foo/bar/"` (third conjunct). -/
theorem c2_normalize (rest s : List Char) (h : rest ≠ []) :
    normalize ('.' :: '/' :: rest) = normalize (rest.dropWhile pathsep) ∧
    containsSlashDotSlash (normalize s) = false ∧
    normalize "foo/.///.///bar/".toList = "foo/bar/".toList := by
  refine ⟨?_, ?_, by decide⟩
  · unfold normalize stripLeadingDotSlash
    have hl : ('.' :: '/' :: rest).length = rest.length + 2 := by simp
    rw [hl, stripGo, if_pos ⟨rfl, rfl, h⟩]
    rw [stripGo_fuel (rest.length + 1) (rest.dropWhile pathsep).length (rest.dropWhile pathsep)
      (by have := length_dropWhile_le pathsep rest; omega) le_rfl]
  · unfold normalize collapseDotSlash
    exact collapseGo_no_dotslash _ _ le_rfl

/-- Witness for `c2_normalize` at concrete inputs. -/
theorem c2_normalize_witness :
    (['b'] : List Char) ≠ [] ∧
    (normalize ('.' :: '/' :: ['b']) = normalize (['b'].dropWhile pathsep) ∧
     containsSlashDotSlash (normalize "a/.//b".toList) = false ∧
     normalize "foo/.///.///bar/".toList = "foo/bar/".toList) :=
  ⟨by decide, c2_normalize ['b'] "a/.//b".toList (by decide)⟩


/-! ### Claims C1 and C10: the rename merge -/

/-- Counterexample to C1 as stated.  C1 says "the node flags are bitwise-ORed
into the destination except intermediate"; but the `dontcare` node flag is not
in the C `MERGE` list either: merging a `dontcare` source into a
non-`dontcare` destination leaves the destination's `dontcare` false, where a
bitwise OR would make it true. -/
theorem c1_counterexample :
    (rehash_file_merge { precious := true }
        { cmds := some 1, phony := true, intermediate := true, dontcare := true }).map
      File.dontcare = Except.ok false ∧
    ({ cmds := some 1, phony := true, intermediate := true, dontcare := true : File }).dontcare
      = true := by
  exact ⟨rfl, rfl⟩

/-- C1 (amended): when the rename merge succeeds, the destination adopts the
source's recipe only if the destination has none; the flags in the `MERGE`
list (`precious`, `loaded`, `tried_implicit`, `updating`, `updated`,
`is_target`, `cmd_target`, `phony`, `is_explicit`, `secondary`,
`notintermediate`, `ignore_vpath`, `snapped`, `suffix`) are bitwise-ORed into
the destination; `intermediate` is never inherited from the source;
`builtin` is cleared, `dontcare` keeps the destination's value; and the
destination's timestamp becomes the larger of the two raw values. -/
theorem c1_rehash_merge_amended (t f m : File) (h : rehash_file_merge t f = .ok m) :
    m.cmds = (if t.cmds = none then f.cmds else t.cmds) ∧
    m.intermediate = t.intermediate ∧
    m.dontcare = t.dontcare ∧
    m.builtin = false ∧
    m.precious = (t.precious || f.precious) ∧
    m.loaded = (t.loaded || f.loaded) ∧
    m.tried_implicit = (t.tried_implicit || f.tried_implicit) ∧
    m.updating = (t.updating || f.updating) ∧
    m.updated = (t.updated || f.updated) ∧
    m.is_target = (t.is_target || f.is_target) ∧
    m.cmd_target = (t.cmd_target || f.cmd_target) ∧
    m.phony = (t.phony || f.phony) ∧
    m.is_explicit = (t.is_explicit || f.is_explicit) ∧
    m.secondary = (t.secondary || f.secondary) ∧
    m.notintermediate = (t.notintermediate || f.notintermediate) ∧
    m.ignore_vpath = (t.ignore_vpath || f.ignore_vpath) ∧
    m.snapped = (t.snapped || f.snapped) ∧
    m.suffix = (t.suffix || f.suffix) ∧
    m.last_mtime = max t.last_mtime f.last_mtime ∧
    m.mtime_before_update = f.mtime_before_update := by
  unfold rehash_file_merge at h
  split_ifs at h
  all_goals first
    | exact Except.noConfusion h
    | (rw [Except.ok.injEq] at h; subst h;
       refine ⟨by dsimp only; split_ifs <;> simp_all, rfl, rfl, rfl, rfl, rfl, rfl, rfl, rfl,
               rfl, rfl, rfl, rfl, rfl, rfl, rfl, rfl, rfl, by dsimp only; omega, rfl⟩)

/-- Witness for `c1_rehash_merge_amended`: the spec's own example, a source
with a recipe, `phony`, `intermediate` (and `dontcare`) merged into a
recipe-less `precious` destination. -/
theorem c1_rehash_merge_amended_witness :
    rehash_file_merge { precious := true }
      { cmds := some 1, phony := true, intermediate := true, dontcare := true } =
      .ok { cmds := some 1, precious := true, phony := true } ∧
    ({ cmds := some 1, precious := true, phony := true : File }).intermediate =
      ({ precious := true : File }).intermediate ∧
    ({ cmds := some 1, precious := true, phony := true : File }).phony =
      (({ precious := true : File }).phony ||
       ({ cmds := some 1, phony := true, intermediate := true, dontcare := true : File }).phony) :=
  ⟨rfl,
   (c1_rehash_merge_amended { precious := true }
      { cmds := some 1, phony := true, intermediate := true, dontcare := true }
      { cmds := some 1, precious := true, phony := true } rfl).2.1,
   (c1_rehash_merge_amended { precious := true }
      { cmds := some 1, phony := true, intermediate := true, dontcare := true }
      { cmds := some 1, precious := true, phony := true } rfl).2.2.2.2.2.2.2.2.2.2.2.1⟩

/-- C10: when the rename merge succeeds, the destination's
`mtime_before_update` is unconditionally overwritten with the source's value,
while `last_mtime` becomes the larger of the two raw values. -/
theorem c10_mtime_before_update (t f m : File) (h : rehash_file_merge t f = .ok m) :
    m.mtime_before_update = f.mtime_before_update ∧
    m.last_mtime = max t.last_mtime f.last_mtime := by
  unfold rehash_file_merge at h
  split_ifs at h
  all_goals first
    | exact Except.noConfusion h
    | (rw [Except.ok.injEq] at h; subst h;
       exact ⟨rfl, by dsimp only; omega⟩)

/-- Witness for `c10_mtime_before_update`: the destination's
`mtime_before_update` (10) is larger than the source's (3), yet the merged
record holds the source's 3; `last_mtime` takes the larger raw value 7. -/
theorem c10_mtime_before_update_witness :
    rehash_file_merge { mtime_before_update := 10, last_mtime := 5 }
      { mtime_before_update := 3, last_mtime := 7 } =
      .ok { mtime_before_update := 3, last_mtime := 7 } ∧
    (({ mtime_before_update := 3, last_mtime := 7 : File }).mtime_before_update =
       ({ mtime_before_update := 3, last_mtime := 7 : File }).mtime_before_update ∧
     ({ mtime_before_update := 3, last_mtime := 7 : File }).last_mtime =
       max ({ mtime_before_update := 10, last_mtime := 5 : File }).last_mtime
         ({ mtime_before_update := 3, last_mtime := 7 : File }).last_mtime) :=
  ⟨rfl,
   c10_mtime_before_update { mtime_before_update := 10, last_mtime := 5 }
     { mtime_before_update := 3, last_mtime := 7 }
     { mtime_before_update := 3, last_mtime := 7 } rfl⟩


/-! ### Lemmas about the registry -/

theorem getD_set_eq (l : List File) (i : Nat) (a : File) (h : i < l.length) :
    (l.set i a).getD i default = a := by
  simp [List.getD_eq_getElem?_getD, List.getElem?_set_self, h]

theorem getD_set_ne (l : List File) (i j : Nat) (a : File) (h : i ≠ j) :
    (l.set i a).getD j default = l.getD j default := by
  simp [List.getD_eq_getElem?_getD, List.getElem?_set_ne h]

theorem getD_concat_len (l : List File) (a : File) :
    (l ++ [a]).getD l.length default = a := by
  simp [List.getD_eq_getElem?_getD, List.getElem?_concat_length]

theorem getD_append_left (l l2 : List File) (i : Nat) (h : i < l.length) :
    (l ++ l2).getD i default = l.getD i default := by
  simp [List.getD_eq_getElem?_getD, List.getElem?_append, h]

theorem getFile_setFile_self (r : Registry) (i : Nat) (v : File) (h : i < r.files.length) :
    (r.setFile i v).getFile i = v :=
  getD_set_eq r.files i v h

theorem getFile_setFile_ne (r : Registry) (i j : Nat) (v : File) (h : i ≠ j) :
    (r.setFile i v).getFile j = r.getFile j :=
  getD_set_ne r.files i j v h

theorem getFile_oob (r : Registry) (i : Nat) (h : r.files.length ≤ i) :
    r.getFile i = default := by
  unfold Registry.getFile
  simp [List.getD_eq_getElem?_getD, List.getElem?_eq_none h]

theorem setFile_oob (r : Registry) (i : Nat) (v : File) (h : r.files.length ≤ i) :
    r.setFile i v = r := by
  unfold Registry.setFile
  rw [List.set_eq_of_length_le h]

theorem find_setFile (r : Registry) (i : Nat) (v : File) (name : String) :
    (r.setFile i v).find name = r.find name := rfl

theorem length_setFile (r : Registry) (i : Nat) (v : File) :
    (r.setFile i v).files.length = r.files.length := by
  simp [Registry.setFile]

/-- Unfolding `enter_file` when the name is unbound. -/
theorem enter_file_vacant (r : Registry) (name : String) (h : r.find name = none) :
    enter_file r name =
      (r.files.length,
       { files := r.files ++ [{ name := name, hname := name, last := some r.files.length }],
         hash := (name, r.files.length) :: r.hash }) := by
  unfold enter_file
  rw [h]

/-- Unfolding `enter_file` when the name is bound to a single-colon record. -/
theorem enter_file_single (r : Registry) (name : String) (i : Nat)
    (h : r.find name = some i) (hdc : (r.getFile i).double_colon = none) :
    enter_file r name = (i, r.setFile i { r.getFile i with builtin := false }) := by
  unfold enter_file
  rw [h]
  dsimp only
  rw [if_pos hdc]

/-- The hash table is untouched by `enter_file` on a name bound to a
double-colon chain. -/
theorem enter_file_dc_hash (r : Registry) (name : String) (i : Nat)
    (h : r.find name = some i) (hdc : (r.getFile i).double_colon ≠ none) :
    (enter_file r name).2.hash = r.hash := by
  unfold enter_file
  rw [h]
  dsimp only
  rw [if_neg hdc]
  dsimp only
  cases (r.getFile i).last <;> rfl

/-- The record returned by `enter_file` on a double-colon-bound name is the
freshly allocated chain member. -/
theorem enter_file_dc_index (r : Registry) (name : String) (i : Nat)
    (h : r.find name = some i) (hdc : (r.getFile i).double_colon ≠ none) :
    (enter_file r name).1 = r.files.length := by
  unfold enter_file
  rw [h]
  dsimp only
  rw [if_neg hdc]

/-- The freshly allocated chain member points its `double_colon` at the old
chain head, starts with no deps, and carries the entered name. -/
theorem enter_file_dc_newfile (r : Registry) (name : String) (i : Nat)
    (h : r.find name = some i) (hdc : (r.getFile i).double_colon ≠ none)
    (hi : i < r.files.length) :
    ((enter_file r name).2.getFile r.files.length).double_colon = some i ∧
    ((enter_file r name).2.getFile r.files.length).deps = [] ∧
    ((enter_file r name).2.getFile r.files.length).name = name := by
  unfold enter_file
  rw [h]
  dsimp only
  rw [if_neg hdc]
  dsimp only
  have hij : i ≠ r.files.length := Nat.ne_of_lt hi
  cases hlast : (r.getFile i).last with
  | none =>
    rw [getFile_setFile_ne _ i _ _ hij]
    have : ({ r with files := r.files ++ [{ name := name, hname := name, double_colon := some i }] }
        : Registry).getFile r.files.length =
        { name := name, hname := name, double_colon := some i } := getD_concat_len _ _
    rw [this]
    exact ⟨rfl, rfl, rfl⟩
  | some k =>
    rw [getFile_setFile_ne _ i _ _ hij]
    by_cases hkj : k = r.files.length
    · subst hkj
      have hlt : r.files.length < (({ r with
          files := r.files ++ [{ name := name, hname := name, double_colon := some i }] }
          : Registry).files).length := by simp
      rw [getFile_setFile_self _ _ _ hlt]
      have : ({ r with files := r.files ++ [{ name := name, hname := name, double_colon := some i }] }
          : Registry).getFile r.files.length =
          { name := name, hname := name, double_colon := some i } := getD_concat_len _ _
      rw [this]
      exact ⟨rfl, rfl, rfl⟩
    · rw [getFile_setFile_ne _ k _ _ hkj]
      have : ({ r with files := r.files ++ [{ name := name, hname := name, double_colon := some i }] }
          : Registry).getFile r.files.length =
          { name := name, hname := name, double_colon := some i } := getD_concat_len _ _
      rw [this]
      exact ⟨rfl, rfl, rfl⟩

/-! ### Claims C3 and C9: enter_file -/

/-- C3 (amended): entering a name known only via a double-colon chain
allocates a new chain member and appends it to the chain: the hash keeps
mapping the name to the old head, the head's `last` is pointed at the new
member, the old last member's `prev` is pointed at the new member, and the
new member links back to the head via `double_colon` and holds its own
(empty) dependency list. -/
theorem c3_enter_double_colon_amended (r : Registry) (name : String) (i k : Nat)
    (hfind : r.find name = some i)
    (hi : i < r.files.length)
    (hdc : (r.getFile i).double_colon ≠ none)
    (hlast : (r.getFile i).last = some k)
    (hk : k < r.files.length) :
    (enter_file r name).1 = r.files.length ∧
    (enter_file r name).1 ≠ i ∧
    (enter_file r name).2.find name = some i ∧
    ((enter_file r name).2.getFile i).last = some r.files.length ∧
    ((enter_file r name).2.getFile k).prev = some r.files.length ∧
    ((enter_file r name).2.getFile r.files.length).double_colon = some i ∧
    ((enter_file r name).2.getFile r.files.length).deps = [] := by
  have hne : (enter_file r name).1 ≠ i := by
    rw [enter_file_dc_index r name i hfind hdc]
    omega
  have hfind2 : (enter_file r name).2.find name = some i := by
    unfold Registry.find at hfind ⊢
    rw [enter_file_dc_hash r name i hfind hdc]
    exact hfind
  refine ⟨enter_file_dc_index r name i hfind hdc, hne, hfind2, ?_, ?_,
    (enter_file_dc_newfile r name i hfind hdc hi).1,
    (enter_file_dc_newfile r name i hfind hdc hi).2.1⟩
  · -- the head's `last` now names the new member
    unfold enter_file
    rw [hfind]
    dsimp only
    rw [if_neg hdc]
    dsimp only
    rw [hlast]
    dsimp only
    rw [getFile_setFile_self _ i _ (by rw [length_setFile]; simp; omega)]
  · -- the old last member's `prev` now names the new member
    unfold enter_file
    rw [hfind]
    dsimp only
    rw [if_neg hdc]
    dsimp only
    rw [hlast]
    dsimp only
    by_cases hki : k = i
    · subst hki
      rw [getFile_setFile_self _ k _ (by rw [length_setFile]; simp; omega)]
      rw [getFile_setFile_self _ k _ (by simp; omega)]
    · rw [getFile_setFile_ne _ i k _ (fun hx => hki hx.symm)]
      rw [getFile_setFile_self _ k _ (by simp; omega)]

/-- Counterexample to C3 as stated.  After registering `"x"` as double-colon
twice, the second registration allocated node 1, but node 1 is not the chain
head: the hash still maps `"x"` to node 0 (chain traversal starts there),
and `last` was updated only on the head — the new member's own `last` is
unset.  The new member is appended at the tail (`head.prev = 1`). -/
theorem c3_counterexample :
    (register_double_colon (register_double_colon {} "x").2 "x").1 = 1 ∧
    (register_double_colon (register_double_colon {} "x").2 "x").2.find "x" = some 0 ∧
    ((register_double_colon (register_double_colon {} "x").2 "x").2.getFile 0).last = some 1 ∧
    ((register_double_colon (register_double_colon {} "x").2 "x").2.getFile 1).last = none ∧
    ((register_double_colon (register_double_colon {} "x").2 "x").2.getFile 0).prev = some 1 ∧
    ((register_double_colon (register_double_colon {} "x").2 "x").2.getFile 1).double_colon
      = some 0 := by
  decide

/-- Witness for `c3_enter_double_colon_amended`: the registry after one
double-colon registration of `"x"` (head node 0, `last` = itself). -/
theorem c3_enter_double_colon_amended_witness :
    ((register_double_colon {} "x").2.find "x" = some 0 ∧
     0 < (register_double_colon {} "x").2.files.length ∧
     ((register_double_colon {} "x").2.getFile 0).double_colon ≠ none ∧
     ((register_double_colon {} "x").2.getFile 0).last = some 0 ∧
     0 < (register_double_colon {} "x").2.files.length) ∧
    ((enter_file (register_double_colon {} "x").2 "x").1
        = (register_double_colon {} "x").2.files.length ∧
     (enter_file (register_double_colon {} "x").2 "x").1 ≠ 0 ∧
     (enter_file (register_double_colon {} "x").2 "x").2.find "x" = some 0 ∧
     ((enter_file (register_double_colon {} "x").2 "x").2.getFile 0).last
        = some (register_double_colon {} "x").2.files.length ∧
     ((enter_file (register_double_colon {} "x").2 "x").2.getFile 0).prev
        = some (register_double_colon {} "x").2.files.length ∧
     ((enter_file (register_double_colon {} "x").2
         "x").2.getFile (register_double_colon {} "x").2.files.length).double_colon = some 0 ∧
     ((enter_file (register_double_colon {} "x").2
         "x").2.getFile (register_double_colon {} "x").2.files.length).deps = []) :=
  ⟨⟨by decide, by decide, by decide, by decide, by decide⟩,
   c3_enter_double_colon_amended (register_double_colon {} "x").2 "x" 0 0
     (by decide) (by decide) (by decide) (by decide) (by decide)⟩

/-- C9: entering the same name twice with no intervening double-colon
registration returns the same arena index both times, and the re-entry
clears the `builtin` flag on the returned single-colon record. -/
theorem c9_enter_file_twice (r r1 : Registry) (name : String) (i : Nat)
    (h1 : enter_file r name = (i, r1))
    (hdc : (r1.getFile i).double_colon = none) :
    (enter_file r1 name).1 = i ∧
    ((enter_file r1 name).2.getFile i).builtin = false := by
  cases hfind : r.find name with
  | none =>
    rw [enter_file_vacant r name hfind] at h1
    injection h1 with hA hB
    subst hA
    subst hB
    have hfind2 : (Registry.mk
        (r.files ++ [{ name := name, hname := name, last := some r.files.length }])
        ((name, r.files.length) :: r.hash)).find name = some r.files.length := by
      simp [Registry.find]
    rw [enter_file_single _ name _ hfind2 hdc]
    refine ⟨rfl, ?_⟩
    rw [getFile_setFile_self _ _ _ (by simp)]
  | some i0 =>
    by_cases hdc0 : (r.getFile i0).double_colon = none
    · rw [enter_file_single r name i0 hfind hdc0] at h1
      injection h1 with hA hB
      subst hA
      subst hB
      have hfind2 : (r.setFile i0 { r.getFile i0 with builtin := false }).find name = some i0 := by
        rw [find_setFile]; exact hfind
      rw [enter_file_single _ name i0 hfind2 hdc]
      refine ⟨rfl, ?_⟩
      by_cases hi : i0 < r.files.length
      · rw [getFile_setFile_self _ _ _ (by rw [length_setFile]; exact hi)]
      · rw [setFile_oob _ i0 _ (by rw [length_setFile]; exact Nat.le_of_not_lt hi)]
        rw [setFile_oob r i0 _ (Nat.le_of_not_lt hi), getFile_oob r i0 (Nat.le_of_not_lt hi)]
        rfl
    · exfalso
      have hi0 : i0 < r.files.length := by
        by_contra hx
        rw [getFile_oob r i0 (Nat.le_of_not_lt hx)] at hdc0
        exact hdc0 rfl
      have h1i : (enter_file r name).1 = r.files.length :=
        enter_file_dc_index r name i0 hfind hdc0
      have hnew := (enter_file_dc_newfile r name i0 hfind hdc0 hi0).1
      rw [h1] at h1i hnew
      simp only at h1i hnew
      rw [← h1i] at hnew
      rw [hdc] at hnew
      exact Option.noConfusion hnew

/-- Witness for `c9_enter_file_twice`: entering `"x"` into the empty registry
and re-entering it. -/
theorem c9_enter_file_twice_witness :
    (enter_file ({} : Registry) "x" = ((enter_file ({} : Registry) "x").1,
        (enter_file ({} : Registry) "x").2) ∧
     ((enter_file ({} : Registry) "x").2.getFile (enter_file ({} : Registry) "x").1).double_colon
        = none) ∧
    ((enter_file (enter_file ({} : Registry) "x").2 "x").1 = (enter_file ({} : Registry) "x").1 ∧
     ((enter_file (enter_file ({} : Registry) "x").2
         "x").2.getFile (enter_file ({} : Registry) "x").1).builtin = false) :=
  ⟨⟨rfl, by decide⟩,
   c9_enter_file_twice ({} : Registry) (enter_file ({} : Registry) "x").2 "x"
     (enter_file ({} : Registry) "x").1 rfl (by decide)⟩


/-! ### Claims C4 and C5: the reap sweep -/

theorem elig_reorder (f : File) :
    (f.intermediate && !f.secondary && !f.notintermediate && !f.cmd_target
      && (f.dontcare || !f.precious)) = intermediate_eligible f := by
  unfold intermediate_eligible
  cases f.intermediate <;> cases f.secondary <;> cases f.notintermediate <;>
    cases f.cmd_target <;> cases f.dontcare <;> cases f.precious <;> rfl

theorem selected_attempt (g : ReapGlobals) (f : File) (u : UnlinkResult)
    (h1 : intermediate_eligible f = true) (h2 : ¬ f.update_status = .us_none) :
    (reap_file g f u).selected = true := by
  unfold reap_file
  rw [if_neg (by simp [h1]), if_neg h2]
  cases hj : g.just_print_flag
  · simp only [if_neg (by simp : ¬ (false = true))]
    rcases u with _ | e
    · rfl
    · cases e
      · rfl
      all_goals (cases f.dontcare <;> simp [ReapAction.selected])
  · rfl

/-- C4: a node is selected for deletion by the reap sweep exactly when it is
intermediate, not secondary, not not-intermediate, not a command-line
target, dontcare-or-not-precious, and its update status is not "never
attempted"; in particular the intermediate+precious+dontcare node with
update status success is selected, and the same node without dontcare is
not. -/
theorem c4_reap_eligibility (g : ReapGlobals) (f : File) (u : UnlinkResult) :
    ((reap_file g f u).selected =
      (f.intermediate && !f.secondary && !f.notintermediate && !f.cmd_target
        && (f.dontcare || !f.precious) && !(f.update_status = .us_none : Bool))) ∧
    (reap_file g { intermediate := true, precious := true, dontcare := true,
                   update_status := .us_success } u).selected = true ∧
    (reap_file g { intermediate := true, precious := true,
                   update_status := .us_success } u).selected = false := by
  refine ⟨?_, ?_, ?_⟩
  · have he := elig_reorder f
    by_cases h1 : intermediate_eligible f = true
    · by_cases h2 : f.update_status = .us_none
      · unfold reap_file
        rw [if_neg (by simp [h1]), if_pos h2]
        simp [ReapAction.selected, h2]
      · rw [selected_attempt g f u h1 h2]
        rw [he, h1]
        simp [h2]
    · unfold reap_file
      rw [if_pos (by simp [h1])]
      have hfalse : intermediate_eligible f = false := by
        cases hx : intermediate_eligible f
        · rfl
        · exact absurd hx h1
      rw [hfalse] at he
      simp [ReapAction.selected, he]
  · exact selected_attempt g _ u (by decide) (by decide)
  · unfold reap_file
    rw [if_pos (by decide)]
    rfl

/-- Counterexample to C5 as stated.  C5 says "every other deletion failure is
reported", but the reporting block (`file.c:418-446`) is guarded by
`!f->dontcare`: an eligible `dontcare` node whose `unlink` fails with a
non-`ENOENT` error (here `EACCES`) is swept past silently, with no report. -/
theorem c5_counterexample :
    reap_file {} { intermediate := true, dontcare := true, update_status := .us_success }
      (.err .eacces) = .failedSilent ∧
    ReapAction.failedSilent.reportsFailure = false := by
  decide

/-- C5 (amended): during the reap sweep a deletion failure with `ENOENT` is
treated as already satisfied and not reported; every other deletion failure
on a non-`dontcare` node is reported; on a `dontcare` node it is swept past
silently; and the sweep continues past every node (one action per node). -/
theorem c5_reap_failures_amended (g : ReapGlobals) (f : File) (e : Errno)
    (fs : List (File × UnlinkResult))
    (hg : g.just_print_flag = false)
    (h1 : intermediate_eligible f = true)
    (h2 : ¬ f.update_status = .us_none) :
    (reap_file g f (.err .enoent) = .keptNotFound ∧
      (reap_file g f (.err .enoent)).reportsFailure = false) ∧
    (e ≠ .enoent → f.dontcare = false → reap_file g f (.err e) = .failedReported) ∧
    (e ≠ .enoent → f.dontcare = true → reap_file g f (.err e) = .failedSilent) ∧
    (reap_punt g = false → (remove_intermediates g fs).length = fs.length) := by
  have hstep : ∀ u : UnlinkResult, reap_file g f u =
      (match (if g.just_print_flag then .ok else u : UnlinkResult) with
       | .ok => .removed
       | .err .enoent => .keptNotFound
       | .err _ => if f.dontcare then .failedSilent else .failedReported) := by
    intro u
    unfold reap_file
    rw [if_neg (by simp [h1]), if_neg h2]
  refine ⟨?_, ?_, ?_, ?_⟩
  · rw [hstep, hg]
    exact ⟨rfl, rfl⟩
  · intro he hd
    rw [hstep, hg]
    cases e
    · exact absurd rfl he
    all_goals simp [hd]
  · intro he hd
    rw [hstep, hg]
    cases e
    · exact absurd rfl he
    all_goals simp [hd]
  · intro hp
    unfold remove_intermediates
    rw [if_neg (by simp [hp])]
    exact List.length_map fs _

/-- Witness for `c5_reap_failures_amended`: an eligible intermediate node
with a successful update, an `EACCES` failure, and a one-node sweep. -/
theorem c5_reap_failures_amended_witness :
    (({} : ReapGlobals).just_print_flag = false ∧
     intermediate_eligible { intermediate := true, update_status := .us_success } = true ∧
     ¬ ({ intermediate := true, update_status := .us_success : File }).update_status
        = .us_none) ∧
    ((reap_file {} { intermediate := true, update_status := .us_success } (.err .enoent)
        = .keptNotFound ∧
      (reap_file {} { intermediate := true, update_status := .us_success }
        (.err .enoent)).reportsFailure = false) ∧
     (Errno.eacces ≠ .enoent →
      ({ intermediate := true, update_status := .us_success : File }).dontcare = false →
      reap_file {} { intermediate := true, update_status := .us_success } (.err .eacces)
        = .failedReported) ∧
     (Errno.eacces ≠ .enoent →
      ({ intermediate := true, update_status := .us_success : File }).dontcare = true →
      reap_file {} { intermediate := true, update_status := .us_success } (.err .eacces)
        = .failedSilent) ∧
     (reap_punt {} = false →
      (remove_intermediates {}
        [({ intermediate := true, update_status := .us_success }, .err .eacces)]).length =
      [({ intermediate := true, update_status := .us_success : File },
        UnlinkResult.err .eacces)].length)) :=
  ⟨⟨by decide, by decide, by decide⟩,
   c5_reap_failures_amended {} { intermediate := true, update_status := .us_success }
     .eacces [({ intermediate := true, update_status := .us_success }, .err .eacces)]
     (by decide) (by decide) (by decide)⟩


/-! ### Claim C6: the fatal intermediate-lifecycle checks of snap_deps -/

theorem slookup_smark (db : List SFile) (n t : String) (upd : SFile → SFile)
    (hname : ∀ g : SFile, (upd g).name = g.name) :
    slookup (smark db n upd) t =
      (slookup db t).map (fun g => if t = n then upd g else g) := by
  induction db with
  | nil => rfl
  | cons a rest ih =>
    have hhname : (if a.name = n then upd a else a).name = a.name := by
      by_cases han : a.name = n
      · rw [if_pos han, hname]
      · rw [if_neg han]
    unfold slookup smark
    unfold slookup smark at ih
    simp only [List.map_cons, List.find?_cons]
    by_cases hat : a.name = t
    · subst hat
      rw [show (decide ((if a.name = n then upd a else a).name = a.name)) = true from by
        rw [hhname]; simp]
      rw [show (decide (a.name = a.name)) = true from by simp]
      by_cases han : a.name = n
      · simp [han]
      · simp [han]
    · rw [show (decide ((if a.name = n then upd a else a).name = t)) = false from by
        rw [hhname]; exact decide_eq_false hat]
      rw [show (decide (a.name = t)) = false from decide_eq_false hat]
      exact ih

theorem slookup_fold_notint (names : List String) :
    ∀ (db : List SFile) (t : String) (g : SFile), slookup db t = some g →
    slookup (names.foldl
      (fun acc n => smark acc n (fun x => { x with notintermediate := true })) db) t =
      some { g with notintermediate := g.notintermediate || names.contains t } := by
  induction names with
  | nil =>
    intro db t g h
    simp [h]
  | cons n rest ih =>
    intro db t g h
    simp only [List.foldl_cons]
    have hstep : slookup (smark db n (fun x => { x with notintermediate := true })) t =
        some (if t = n then { g with notintermediate := true } else g) := by
      rw [slookup_smark db n t (fun x => { x with notintermediate := true }) (fun _ => rfl), h]
      rfl
    by_cases htn : t = n
    · rw [if_pos htn] at hstep
      rw [ih _ t _ hstep]
      have hc : (n :: rest).contains t = true := by
        simp [List.contains_cons, htn]
      rw [hc]
      simp
    · rw [if_neg htn] at hstep
      rw [ih _ t _ hstep]
      have hc : (n :: rest).contains t = rest.contains t := by
        simp only [List.contains_cons]
        rw [show (t == n) = false from by
          simp [htn]]
        simp
      rw [hc]

theorem snap_intermediate_deps_error (deps : List String) :
    ∀ (db : List SFile) (t : String) (g : SFile),
    slookup db t = some g → g.notintermediate = true → t ∈ deps →
    ∃ msg, snap_intermediate_deps db deps = .error msg := by
  induction deps with
  | nil =>
    intro db t g _ _ ht
    exact absurd ht (List.not_mem_nil t)
  | cons n rest ih =>
    intro db t g h hni ht
    simp only [snap_intermediate_deps]
    cases hn : slookup db n with
    | none =>
      have htr : t ∈ rest := by
        cases List.mem_cons.mp ht with
        | inl he => subst he; rw [h] at hn; exact Option.noConfusion hn
        | inr hr => exact hr
      exact ih db t g h hni htr
    | some gn =>
      dsimp only
      by_cases hgni : gn.notintermediate = true
      · rw [if_pos hgni]
        exact ⟨_, rfl⟩
      · rw [if_neg hgni]
        by_cases htn : t = n
        · subst htn
          rw [h] at hn
          injection hn with he
          subst he
          exact absurd hni hgni
        · have hpres : slookup (smark db n (fun x => { x with intermediate := true })) t =
              some g := by
            rw [slookup_smark db n t (fun x => { x with intermediate := true }) (fun _ => rfl), h]
            simp [htn]
          have htr : t ∈ rest := by
            cases List.mem_cons.mp ht with
            | inl he => exact absurd he htn
            | inr hr => exact hr
          exact ih _ t g hpres hni htr

theorem snap_secondary_deps_error (deps : List String) :
    ∀ (db : List SFile) (t : String) (g : SFile),
    slookup db t = some g → g.notintermediate = true → t ∈ deps →
    ∃ msg, snap_secondary_deps db deps = .error msg := by
  induction deps with
  | nil =>
    intro db t g _ _ ht
    exact absurd ht (List.not_mem_nil t)
  | cons n rest ih =>
    intro db t g h hni ht
    simp only [snap_secondary_deps]
    cases hn : slookup db n with
    | none =>
      have htr : t ∈ rest := by
        cases List.mem_cons.mp ht with
        | inl he => subst he; rw [h] at hn; exact Option.noConfusion hn
        | inr hr => exact hr
      exact ih db t g h hni htr
    | some gn =>
      dsimp only
      by_cases hgni : gn.notintermediate = true
      · rw [if_pos hgni]
        exact ⟨_, rfl⟩
      · rw [if_neg hgni]
        by_cases htn : t = n
        · subst htn
          rw [h] at hn
          injection hn with he
          subst he
          exact absurd hni hgni
        · have hpres : slookup
              (smark db n (fun x => { x with intermediate := true, secondary := true })) t =
              some g := by
            rw [slookup_smark db n t (fun x => { x with intermediate := true, secondary := true }) (fun _ => rfl), h]
            simp [htn]
          have htr : t ∈ rest := by
            cases List.mem_cons.mp ht with
            | inl he => exact absurd he htn
            | inr hr => exact hr
          exact ih _ t g hpres hni htr

theorem snap_intermediate_deps_ok (deps : List String) :
    ∀ (db db2 : List SFile), snap_intermediate_deps db deps = .ok db2 →
    ∀ (t : String) (g : SFile), slookup db t = some g →
    ∃ g2, slookup db2 t = some g2 ∧ g2.name = g.name ∧ g2.deps = g.deps ∧
      g2.notintermediate = g.notintermediate := by
  induction deps with
  | nil =>
    intro db db2 hok t g h
    simp only [snap_intermediate_deps] at hok
    injection hok with he
    subst he
    exact ⟨g, h, rfl, rfl, rfl⟩
  | cons n rest ih =>
    intro db db2 hok t g h
    simp only [snap_intermediate_deps] at hok
    cases hn : slookup db n with
    | none =>
      rw [hn] at hok
      exact ih db db2 hok t g h
    | some gn =>
      rw [hn] at hok
      dsimp only at hok
      by_cases hgni : gn.notintermediate = true
      · rw [if_pos hgni] at hok
        exact Except.noConfusion hok
      · rw [if_neg hgni] at hok
        have hpres : slookup (smark db n (fun x => { x with intermediate := true })) t =
            some (if t = n then { g with intermediate := true } else g) := by
          rw [slookup_smark db n t (fun x => { x with intermediate := true })
            (fun _ => rfl), h]
          rfl
        obtain ⟨g2, hg2, hname, hdeps, hni⟩ := ih _ db2 hok t _ hpres
        by_cases htn : t = n
        · rw [if_pos htn] at hname hdeps hni
          exact ⟨g2, hg2, hname, hdeps, hni⟩
        · rw [if_neg htn] at hname hdeps hni
          exact ⟨g2, hg2, hname, hdeps, hni⟩

theorem snap_notintermediate_lookup (db : List SFile) (t : String) (g : SFile)
    (h : slookup db t = some g) :
    ∃ g2, slookup (snap_notintermediate db).1 t = some g2 ∧ g2.name = g.name ∧
      g2.deps = g.deps ∧ (g.notintermediate = true → g2.notintermediate = true) := by
  unfold snap_notintermediate
  cases h4 : slookup db ".NOTINTERMEDIATE" with
  | none => exact ⟨g, h, rfl, rfl, fun hx => hx⟩
  | some f =>
    dsimp only
    by_cases hd : f.deps ≠ []
    · rw [if_pos hd]
      dsimp only
      rw [slookup_fold_notint f.deps db t g h]
      refine ⟨_, rfl, rfl, rfl, ?_⟩
      intro hx
      simp [hx]
    · rw [if_neg hd]
      exact ⟨g, h, rfl, rfl, fun hx => hx⟩

theorem snap_notintermediate_marks (db : List SFile) (t : String) (g f4 : SFile)
    (h : slookup db t = some g)
    (h4 : slookup db ".NOTINTERMEDIATE" = some f4) (ht : t ∈ f4.deps) :
    ∃ g2, slookup (snap_notintermediate db).1 t = some g2 ∧
      g2.notintermediate = true := by
  unfold snap_notintermediate
  rw [h4]
  dsimp only
  rw [if_pos (by intro hx; rw [hx] at ht; exact List.not_mem_nil t ht)]
  dsimp only
  rw [slookup_fold_notint f4.deps db t g h]
  refine ⟨_, rfl, ?_⟩
  simp
  exact Or.inr ht

theorem snap_notintermediate_nodeps (db : List SFile) (f4 : SFile)
    (h4 : slookup db ".NOTINTERMEDIATE" = some f4) (hd : f4.deps = []) :
    snap_notintermediate db = (db, true) := by
  unfold snap_notintermediate
  rw [h4]
  dsimp only
  rw [if_neg (by simp [hd])]

theorem snap_intermediate_ok_lookup (db db2 : List SFile)
    (hok : snap_intermediate db = .ok db2)
    (t : String) (g : SFile) (h : slookup db t = some g) :
    ∃ g2, slookup db2 t = some g2 ∧ g2.name = g.name ∧ g2.deps = g.deps ∧
      g2.notintermediate = g.notintermediate := by
  unfold snap_intermediate at hok
  cases hI : slookup db ".INTERMEDIATE" with
  | none =>
    rw [hI] at hok
    injection hok with he
    subst he
    exact ⟨g, h, rfl, rfl, rfl⟩
  | some f =>
    rw [hI] at hok
    exact snap_intermediate_deps_ok f.deps db db2 hok t g h

/-- C6: during the one-shot finalize pass, marking a target intermediate via
`.INTERMEDIATE` is fatal if the target is already `notintermediate` (first
conjunct); likewise for `.SECONDARY`, which marks intermediate+secondary
(second conjunct); it is fatal when both the global "all files
not-intermediate" and "all files secondary" flags get set (third conjunct);
and in particular declaring a target both `.INTERMEDIATE` and
`.NOTINTERMEDIATE` hits the fatal mutual-exclusion path (fourth
conjunct). -/
theorem c6_snap_intermediates_fatal (db : List SFile) (t : String)
    (g fI fS f4 f6 : SFile) :
    (slookup db ".INTERMEDIATE" = some fI → t ∈ fI.deps → slookup db t = some g →
      g.notintermediate = true → ∃ msg, snap_deps_intermediates db = .error msg) ∧
    (slookup db ".SECONDARY" = some fS → t ∈ fS.deps → slookup db t = some g →
      g.notintermediate = true → ∃ msg, snap_deps_intermediates db = .error msg) ∧
    (slookup db ".NOTINTERMEDIATE" = some f4 → f4.deps = [] →
      slookup db ".SECONDARY" = some f6 → f6.deps = [] →
      ∃ msg, snap_deps_intermediates db = .error msg) ∧
    (slookup db ".NOTINTERMEDIATE" = some f4 → t ∈ f4.deps →
      slookup db ".INTERMEDIATE" = some fI → t ∈ fI.deps → slookup db t = some g →
      ∃ msg, snap_deps_intermediates db = .error msg) := by
  refine ⟨?_, ?_, ?_, ?_⟩
  · intro hI htI hg hni
    obtain ⟨g1, hg1, _, _, hniimp⟩ := snap_notintermediate_lookup db t g hg
    obtain ⟨fI1, hfI1, _, hfIdeps, _⟩ := snap_notintermediate_lookup db ".INTERMEDIATE" fI hI
    obtain ⟨msg, hmsg⟩ := snap_intermediate_deps_error fI1.deps (snap_notintermediate db).1
      t g1 hg1 (hniimp hni) (by rw [hfIdeps]; exact htI)
    have hsi : snap_intermediate (snap_notintermediate db).1 = .error msg := by
      unfold snap_intermediate
      rw [hfI1]
      exact hmsg
    exact ⟨msg, by unfold snap_deps_intermediates; rw [hsi]⟩
  · intro hS htS hg hni
    obtain ⟨g1, hg1, _, _, hniimp⟩ := snap_notintermediate_lookup db t g hg
    obtain ⟨fS1, hfS1, _, hfSdeps, _⟩ := snap_notintermediate_lookup db ".SECONDARY" fS hS
    cases hsi : snap_intermediate (snap_notintermediate db).1 with
    | error m => exact ⟨m, by unfold snap_deps_intermediates; rw [hsi]⟩
    | ok db2 =>
      obtain ⟨g2, hg2, _, _, hni2⟩ := snap_intermediate_ok_lookup _ db2 hsi t g1 hg1
      obtain ⟨fS2, hfS2, _, hfS2deps, _⟩ :=
        snap_intermediate_ok_lookup _ db2 hsi ".SECONDARY" fS1 hfS1
      have hni2t : g2.notintermediate = true := by rw [hni2]; exact hniimp hni
      obtain ⟨msg, hmsg⟩ := snap_secondary_deps_error fS2.deps db2 t g2 hg2 hni2t
        (by rw [hfS2deps, hfSdeps]; exact htS)
      have hss : snap_secondary db2 = .error msg := by
        unfold snap_secondary
        rw [hfS2]
        dsimp only
        rw [if_pos (by rw [hfS2deps, hfSdeps]
                       intro hx
                       rw [hx] at htS
                       exact List.not_mem_nil t htS)]
        rw [hmsg]
        rfl
      exact ⟨msg, by unfold snap_deps_intermediates; rw [hsi]; dsimp only; rw [hss]⟩
  · intro h4 hd4 h6 hd6
    have hp1 : snap_notintermediate db = (db, true) :=
      snap_notintermediate_nodeps db f4 h4 hd4
    cases hsi : snap_intermediate (snap_notintermediate db).1 with
    | error m => exact ⟨m, by unfold snap_deps_intermediates; rw [hsi]⟩
    | ok db2 =>
      have h6' : slookup (snap_notintermediate db).1 ".SECONDARY" = some f6 := by
        rw [hp1]
        exact h6
      obtain ⟨f62, hf62, _, hf62deps, _⟩ :=
        snap_intermediate_ok_lookup _ db2 hsi ".SECONDARY" f6 h6'
      have hss : snap_secondary db2 = .ok (db2, true) := by
        unfold snap_secondary
        rw [hf62]
        dsimp only
        rw [if_neg (by rw [hf62deps, hd6]; simp)]
      refine ⟨".NOTINTERMEDIATE and .SECONDARY are mutually exclusive", ?_⟩
      unfold snap_deps_intermediates
      rw [hsi]
      dsimp only
      rw [hss]
      dsimp only
      rw [if_pos (by rw [hp1]; rfl)]
  · intro h4 ht4 hI htI hg
    obtain ⟨g1, hg1, hni1⟩ := snap_notintermediate_marks db t g f4 hg h4 ht4
    obtain ⟨fI1, hfI1, _, hfIdeps, _⟩ := snap_notintermediate_lookup db ".INTERMEDIATE" fI hI
    obtain ⟨msg, hmsg⟩ := snap_intermediate_deps_error fI1.deps (snap_notintermediate db).1
      t g1 hg1 hni1 (by rw [hfIdeps]; exact htI)
    have hsi : snap_intermediate (snap_notintermediate db).1 = .error msg := by
      unfold snap_intermediate
      rw [hfI1]
      exact hmsg
    exact ⟨msg, by unfold snap_deps_intermediates; rw [hsi]⟩

/-- Witness for `c6_snap_intermediates_fatal`: a database declaring target
`"t"` both `.NOTINTERMEDIATE` and `.INTERMEDIATE` (fourth conjunct), and a
database with both no-deps `.NOTINTERMEDIATE` and no-deps `.SECONDARY`
(third conjunct). -/
theorem c6_snap_intermediates_fatal_witness :
    (∃ msg, snap_deps_intermediates
      [{ name := ".NOTINTERMEDIATE", deps := ["t"] },
       { name := ".INTERMEDIATE", deps := ["t"] },
       { name := "t" }] = .error msg) ∧
    (∃ msg, snap_deps_intermediates
      [{ name := ".NOTINTERMEDIATE" }, { name := ".SECONDARY" }] = .error msg) :=
  ⟨(c6_snap_intermediates_fatal
      [{ name := ".NOTINTERMEDIATE", deps := ["t"] },
       { name := ".INTERMEDIATE", deps := ["t"] },
       { name := "t" }] "t" { name := "t" } { name := ".INTERMEDIATE", deps := ["t"] }
      { name := "" } { name := ".NOTINTERMEDIATE", deps := ["t"] } { name := "" }).2.2.2
      (by decide) (by decide) (by decide) (by decide) (by decide),
   (c6_snap_intermediates_fatal
      [{ name := ".NOTINTERMEDIATE" }, { name := ".SECONDARY" }] "t" { name := "" }
      { name := "" } { name := "" } { name := ".NOTINTERMEDIATE" }
      { name := ".SECONDARY" }).2.2.1
      (by decide) (by decide) (by decide) (by decide)⟩


/-! ### Claims C7 and C8: second expansion -/

theorem expand_deps_snapped (env : ExpandEnv) (r : Registry) (f : File)
    (h : f.snapped = true) : expand_deps env r f = (r, f) := by
  unfold expand_deps
  rw [if_pos h]

theorem expand_deps_sets_snapped (env : ExpandEnv) (r : Registry) (f : File) :
    (expand_deps env r f).2.snapped = true := by
  unfold expand_deps
  by_cases h : f.snapped = true
  · rw [if_pos h]
    exact h
  · rw [if_neg h]

/-- C8: the second-expansion pass runs at most once per node — it is guarded
by the node's `snapped` flag (first conjunct), and invoking it again on an
already-expanded node changes nothing: neither the registry nor the node,
so in particular the dependency list is unchanged (second conjunct). -/
theorem c8_expand_deps_once (env : ExpandEnv) (r : Registry) (f : File) :
    (f.snapped = true → expand_deps env r f = (r, f)) ∧
    expand_deps env (expand_deps env r f).1 (expand_deps env r f).2 =
      ((expand_deps env r f).1, (expand_deps env r f).2) :=
  ⟨expand_deps_snapped env r f,
   expand_deps_snapped env (expand_deps env r f).1 (expand_deps env r f).2
     (expand_deps_sets_snapped env r f)⟩

/-- Witness for `c8_expand_deps_once`: a node already snapped is untouched,
and a freshly expanded node is untouched by a repeat invocation. -/
theorem c8_expand_deps_once_witness :
    ({ snapped := true : File }).snapped = true ∧
    expand_deps ⟨fun _ _ => ""⟩ {} { snapped := true } = ({}, { snapped := true }) ∧
    expand_deps ⟨fun _ _ => ""⟩
        (expand_deps ⟨fun _ _ => ""⟩ {} { snapped := true }).1
        (expand_deps ⟨fun _ _ => ""⟩ {} { snapped := true }).2 =
      ((expand_deps ⟨fun _ _ => ""⟩ {} { snapped := true }).1,
       (expand_deps ⟨fun _ _ => ""⟩ {} { snapped := true }).2) :=
  ⟨rfl,
   (c8_expand_deps_once ⟨fun _ _ => ""⟩ {} { snapped := true }).1 rfl,
   (c8_expand_deps_once ⟨fun _ _ => ""⟩ {} { snapped := true }).2⟩

theorem expand_dep_list_pass (env : ExpandEnv) (fs : Option String) :
    ∀ (l : List Dep) (r : Registry),
    (∀ d' ∈ l, d'.name = none ∨ d'.need_2nd_expansion = false) →
    expand_dep_list env fs r l = (r, l) := by
  intro l
  induction l with
  | nil => intro r _; rfl
  | cons a rest ih =>
    intro r h
    unfold expand_dep_list
    rw [if_pos (h a (List.mem_cons_self a rest))]
    dsimp only
    rw [ih r (fun d' hd' => h d' (List.mem_cons_of_mem a hd'))]

theorem second_expand_dep_empty (env : ExpandEnv) (fs : Option String) (r : Registry)
    (d : Dep) (nm : String) (oo : Bool) (dn : Option String)
    (h : split_prereqs (env.expand nm (match d.stem with
      | some s => some s
      | none => fs)) dn = []) :
    second_expand_dep env fs r d nm oo dn = (r, []) := by
  unfold second_expand_dep
  dsimp only
  rw [h]
  rfl

theorem expand_dep_list_drop (env : ExpandEnv) (fs : Option String) :
    ∀ (pre : List Dep) (r : Registry) (d : Dep) (post : List Dep) (nm : String),
    (∀ d' ∈ pre ++ post, d'.name = none ∨ d'.need_2nd_expansion = false) →
    d.name = some nm → d.need_2nd_expansion = true → d.staticpattern = false →
    split_prereqs (env.expand nm (match d.stem with
      | some s => some s
      | none => fs)) none = [] →
    expand_dep_list env fs r (pre ++ d :: post) = (r, pre ++ post) := by
  intro pre
  induction pre with
  | nil =>
    intro r d post nm hpass hn h2 hsp hempty
    simp only [List.nil_append]
    unfold expand_dep_list
    rw [if_neg (by simp [hn, h2])]
    rw [if_neg (by simp [hsp])]
    have hnm : d.name.getD "" = nm := by rw [hn]; rfl
    rw [hnm, second_expand_dep_empty env fs r d nm false none hempty]
    dsimp only
    rw [expand_dep_list_pass env fs post r (by simpa using hpass)]
    simp
  | cons a pre2 ih =>
    intro r d post nm hpass hn h2 hsp hempty
    simp only [List.cons_append]
    unfold expand_dep_list
    rw [if_pos (hpass a (by simp))]
    dsimp only
    rw [ih r d post nm (fun d' hd' => hpass d' (by simp at hd' ⊢; tauto)) hn h2 hsp hempty]

theorem filterMap_all_some (p : Dep → Option Dep) :
    ∀ l : List Dep, (∀ x ∈ l, p x ≠ none) → (l.filterMap p).length = l.length := by
  intro l
  induction l with
  | nil => intro; rfl
  | cons a rest ih =>
    intro h
    rw [List.filterMap_cons]
    cases hp : p a with
    | none => exact absurd hp (h a (by simp))
    | some b =>
      simp only [List.length_cons]
      rw [ih (fun x hx => h x (by simp [hx]))]

theorem enter_prereq_files_len (osa : Bool) :
    ∀ (l : List Dep) (r : Registry),
    ((enter_prereq_files osa r l).2).length = l.length := by
  intro l
  induction l with
  | nil => intro r; rfl
  | cons a rest ih =>
    intro r
    unfold enter_prereq_files
    by_cases h : a.need_2nd_expansion = true
    · rw [if_pos h]
      simp only [List.length_cons]
      rw [ih]
    · rw [if_neg h]
      simp only [List.length_cons]
      rw [ih]

/-- C7: an edge whose second expansion parses to no prerequisites is dropped
with no replacement and no error (the walk is a total function), leaving the
node with one fewer dependency edge (first conjunct); likewise stem
substitution producing an empty name silently drops that edge in
`enter_prereqs` (second conjunct). -/
theorem c7_empty_expansion_drops (env : ExpandEnv) (r r2 : Registry) (f : File)
    (pre post : List Dep) (d : Dep) (nm : String) (file : Option File) :
    (f.snapped = false → f.deps = pre ++ d :: post →
     (∀ d' ∈ pre ++ post, d'.name = none ∨ d'.need_2nd_expansion = false) →
     d.name = some nm → d.need_2nd_expansion = true → d.staticpattern = false →
     split_prereqs (env.expand nm (match d.stem with
       | some s => some s
       | none => f.stem)) none = [] →
     (expand_deps env r f).2.deps = pre ++ post ∧
     (expand_deps env r f).2.deps.length = f.deps.length - 1) ∧
    (stem_subst_dep d = none →
     (∀ d' ∈ pre ++ post, stem_subst_dep d' ≠ none) →
     ((pre ++ d :: post).head?.bind Dep.stem).isSome = true →
     (enter_prereqs r2 (pre ++ d :: post) file).2.length =
       (pre ++ d :: post).length - 1) := by
  constructor
  · intro hsnap hdeps hpass hn h2 hsp hempty
    have hmain : (expand_deps env r f).2.deps = pre ++ post := by
      unfold expand_deps
      rw [if_neg (by simp [hsnap])]
      dsimp only
      rw [hdeps]
      rw [expand_dep_list_drop env f.stem pre r d post nm hpass hn h2 hsp hempty]
    refine ⟨hmain, ?_⟩
    rw [hmain, hdeps]
    simp only [List.length_append, List.length_cons]
    omega
  · intro hsub hrest hhead
    unfold enter_prereqs
    rw [if_neg (by cases pre <;> simp)]
    dsimp only
    rw [if_pos hhead]
    have hfm : ((pre ++ d :: post).filterMap stem_subst_dep).length =
        pre.length + post.length := by
      rw [List.filterMap_append, List.filterMap_cons, hsub]
      simp only [List.length_append]
      rw [filterMap_all_some stem_subst_dep pre
            (fun x hx => hrest x (by simp [hx])),
          filterMap_all_some stem_subst_dep post
            (fun x hx => hrest x (by simp [hx]))]
    rw [enter_prereq_files_len]
    rw [hfm]
    simp only [List.length_append, List.length_cons]
    omega

/-- Witness for `c7_empty_expansion_drops`: the single dependency `"%"` with
empty stem, whose expansion under the empty-output oracle parses to no
prerequisites, and whose stem substitution yields the empty name. -/
theorem c7_empty_expansion_drops_witness :
    ((expand_deps ⟨fun _ _ => ""⟩ {}
        { deps := [{ name := some "%", need_2nd_expansion := true,
                     stem := some "" }] }).2.deps = [] ∧
     (expand_deps ⟨fun _ _ => ""⟩ {}
        { deps := [{ name := some "%", need_2nd_expansion := true,
                     stem := some "" }] }).2.deps.length =
       ({ deps := [{ name := some "%", need_2nd_expansion := true,
                     stem := some "" }] : File }).deps.length - 1) ∧
    (enter_prereqs {}
        [{ name := some "%", need_2nd_expansion := true, stem := some "" }]
        none).2.length =
      ([{ name := some "%", need_2nd_expansion := true, stem := some "" }] :
        List Dep).length - 1 :=
  ⟨(c7_empty_expansion_drops ⟨fun _ _ => ""⟩ {} {}
      { deps := [{ name := some "%", need_2nd_expansion := true, stem := some "" }] }
      [] [] { name := some "%", need_2nd_expansion := true, stem := some "" } "%"
      none).1
      rfl rfl (by simp) rfl rfl rfl (by decide),
   (c7_empty_expansion_drops ⟨fun _ _ => ""⟩ {} {}
      { deps := [{ name := some "%", need_2nd_expansion := true, stem := some "" }] }
      [] [] { name := some "%", need_2nd_expansion := true, stem := some "" } "%"
      none).2
      (by decide) (by simp) (by decide)⟩

end MakeFile
